import Mathlib

/-!
# Face cropping pipeline (`main.go`): a verification development

A shallow embedding of the functions of `main.go` that turn detector output
into rectangles (`GetFaceRect`), crop a rectangle out of an image
(`cropImage`), and store a crop under a checksum-derived file name
(`crcHash`, `writeImage`, `imageToBase64`), together with the parts of the Go
standard library they call (`image.Rect`, `Rectangle.Intersect`,
`(*image.NRGBA).SubImage`, `crc32`, `fmt.Sprintf("%08x")`,
`http.DetectContentType`, `base64.StdEncoding`).

Go's `int` is the 64-bit two's-complement integer: values are `Int`s and every
arithmetic result goes through `wrap64`.
-/

set_option autoImplicit false

namespace CropFaces

/-! ## Machine integers -/

/-- Two's-complement reduction of an integer to the range of Go's 64-bit `int`. -/
def wrap64 (x : Int) : Int := (x + 2 ^ 63) % 2 ^ 64 - 2 ^ 63

/-- Membership in the range of Go's 64-bit `int`. -/
def InInt64 (x : Int) : Prop := -(2 ^ 63) ≤ x ∧ x < 2 ^ 63

instance (x : Int) : Decidable (InInt64 x) := by unfold InInt64; infer_instance

/-- Go `a - b` on `int`. -/
def subInt (a b : Int) : Int := wrap64 (a - b)

/-- Go `a + b` on `int`. -/
def addInt (a b : Int) : Int := wrap64 (a + b)

/-- Go `a * b` on `int`. -/
def mulInt (a b : Int) : Int := wrap64 (a * b)

/-- Go `a / b` on `int`: the quotient truncated toward zero. -/
def quoInt (a b : Int) : Int := wrap64 (Int.tdiv a b)

/-! ## float32 scores -/

/-- The values a Go `float32` can take, as far as comparisons see them: a
finite number (every finite `float32` is a rational), the two infinities, or a
NaN. -/
inductive F32 where
  | finite (q : ℚ)
  | posInf
  | negInf
  | nan
  deriving DecidableEq

namespace F32

/-- Go `a > b` on `float32` (IEEE 754: false as soon as an operand is NaN). -/
def gt : F32 → F32 → Bool
  | nan, _ => false
  | _, nan => false
  | posInf, posInf => false
  | posInf, _ => true
  | _, posInf => false
  | negInf, _ => false
  | finite _, negInf => true
  | finite a, finite b => decide (b < a)

/-- Go `a <= b` on `float32` (IEEE 754: false as soon as an operand is NaN). -/
def le : F32 → F32 → Bool
  | nan, _ => false
  | _, nan => false
  | _, posInf => true
  | posInf, _ => false
  | negInf, _ => true
  | finite _, negInf => false
  | finite a, finite b => decide (a ≤ b)

end F32

/-! ## `image.Point`, `image.Rectangle` -/

/-- Go `image.Point`. -/
structure Point where
  X : Int
  Y : Int
  deriving DecidableEq, Repr

/-- Go `image.Rectangle`: the points with `Min.X <= X < Max.X`, `Min.Y <= Y < Max.Y`. -/
structure Rectangle where
  Min : Point
  Max : Point
  deriving DecidableEq, Repr

/-- Go `image.Rect(x0, y0, x1, y1)`: the rectangle with those corners, the
coordinates swapped where needed so that the result is well formed. -/
def Rect (x0 y0 x1 y1 : Int) : Rectangle :=
  let (x0, x1) := if x0 > x1 then (x1, x0) else (x0, x1)
  let (y0, y1) := if y0 > y1 then (y1, y0) else (y0, y1)
  ⟨⟨x0, y0⟩, ⟨x1, y1⟩⟩

/-! ## `GetFaceRect` -/

/-- The `pigo.Detection` quadruplet: row, column, scale and detection score. -/
structure Detection where
  Row : Int
  Col : Int
  Scale : Int
  Q : F32
  deriving DecidableEq

/-- The constant `qThresh float32 = 5.0` of `GetFaceRect`. -/
def qThresh : F32 := F32.finite 5

/-- The rectangle the loop body of `GetFaceRect` builds for one detection. -/
def faceRect (face : Detection) : Rectangle :=
  Rect (subInt face.Col (quoInt face.Scale 2))
       (subInt face.Row (quoInt face.Scale 2))
       (addInt face.Col (quoInt face.Scale 2))
       (addInt face.Row (quoInt face.Scale 2))

/-- One iteration of the `for _, face := range faces` loop of `GetFaceRect`. -/
def getFaceRectStep (rects : List Rectangle) (face : Detection) : List Rectangle :=
  if F32.gt face.Q qThresh then rects ++ [faceRect face] else rects

/-- The function `GetFaceRect`: the loop over the detections, appending to `rects`
(nil at first). -/
def GetFaceRect (faces : List Detection) : List Rectangle :=
  faces.foldl getFaceRectStep []

/-! ## Images: `image.Rectangle` methods, `image.NRGBA`, `image.Uniform` -/

/-- Go `image.ZR`, the zero rectangle. -/
def ZR : Rectangle := ⟨⟨0, 0⟩, ⟨0, 0⟩⟩

/-- Go `Rectangle.Empty`: whether the rectangle contains no points. -/
def Rectangle.Empty (r : Rectangle) : Bool :=
  decide (r.Min.X ≥ r.Max.X) || decide (r.Min.Y ≥ r.Max.Y)

/-- Go `Rectangle.Dx`: the width. -/
def Rectangle.Dx (r : Rectangle) : Int := subInt r.Max.X r.Min.X

/-- Go `Rectangle.Dy`: the height. -/
def Rectangle.Dy (r : Rectangle) : Int := subInt r.Max.Y r.Min.Y

/-- Go `Point.In`: whether the point is in the rectangle. -/
def Point.In (p : Point) (r : Rectangle) : Bool :=
  decide (r.Min.X ≤ p.X) && decide (p.X < r.Max.X) &&
    decide (r.Min.Y ≤ p.Y) && decide (p.Y < r.Max.Y)

/-- Go `Rectangle.Intersect`: the largest rectangle contained by both `r` and
`s`; the zero rectangle when they do not overlap. -/
def Rectangle.Intersect (r s : Rectangle) : Rectangle :=
  let minX := if r.Min.X < s.Min.X then s.Min.X else r.Min.X
  let minY := if r.Min.Y < s.Min.Y then s.Min.Y else r.Min.Y
  let maxX := if r.Max.X > s.Max.X then s.Max.X else r.Max.X
  let maxY := if r.Max.Y > s.Max.Y then s.Max.Y else r.Max.Y
  let r1 : Rectangle := ⟨⟨minX, minY⟩, ⟨maxX, maxY⟩⟩
  if r1.Empty then ZR else r1

/-- Go `color.NRGBA`: a non-alpha-premultiplied 32-bit colour. -/
structure Color where
  R : Nat
  G : Nat
  B : Nat
  A : Nat
  deriving DecidableEq, Repr

/-- Go `image.NRGBA`: `Pix` holds the pixels in R, G, B, A order, `Stride` is
the distance in bytes between vertically adjacent pixels, `Rect` the bounds.
A byte is a `Nat`; the capacity of the slice `Pix` is taken to be its length. -/
structure NRGBA where
  Pix : List Nat
  Stride : Int
  Rect : Rectangle
  deriving DecidableEq, Repr

/-- How a call ends: it returns a value, it returns a non-nil `error`, or the
process stops (a run-time panic, or `log.Fatal`). -/
inductive Outcome (α : Type) where
  | ok (a : α)
  | error (msg : String)
  | fatal
  deriving DecidableEq, Repr

/-- Go `(*NRGBA).PixOffset`: the index in `Pix` of the first byte of pixel `(x, y)`. -/
def NRGBA.PixOffset (p : NRGBA) (x y : Int) : Int :=
  addInt (mulInt (subInt y p.Rect.Min.Y) p.Stride) (mulInt (subInt x p.Rect.Min.X) 4)

/-- Go `(*NRGBA).NRGBAAt`: the colour at `(x, y)`, the zero colour outside the
bounds; `none` when the slice expression `p.Pix[i : i+4 : i+4]` panics. -/
def NRGBA.NRGBAAt (p : NRGBA) (x y : Int) : Option Color :=
  if !(Point.In ⟨x, y⟩ p.Rect) then some ⟨0, 0, 0, 0⟩
  else
    let i := p.PixOffset x y
    if 0 ≤ i ∧ addInt i 4 ≤ p.Pix.length ∧ i ≤ addInt i 4 then
      let s := (p.Pix.drop i.toNat).take 4
      some ⟨s.getD 0 0, s.getD 1 0, s.getD 2 0, s.getD 3 0⟩
    else none

/-- Go `(*NRGBA).SubImage`: the part of `p` visible through `r`, sharing the
pixels of `p`; `none` when the slice expression `p.Pix[i:]` panics. -/
def NRGBA.SubImage (p : NRGBA) (r : Rectangle) : Option NRGBA :=
  let r := r.Intersect p.Rect
  if r.Empty then some ⟨[], 0, ZR⟩
  else
    let i := p.PixOffset r.Min.X r.Min.Y
    if 0 ≤ i ∧ i ≤ p.Pix.length then some ⟨p.Pix.drop i.toNat, p.Stride, r⟩ else none

/-- The values of the interface `image.Image` that are told apart here: an
`*image.NRGBA` (which has a `SubImage` method; `pigo.GetImage` returns one) and
an `*image.Uniform` of one colour (which has none). -/
inductive Image where
  | nrgba (p : NRGBA)
  | uniform (c : Color)
  deriving DecidableEq, Repr

/-- Go `Image.Bounds`; an `image.Uniform` has the bounds `(-1e9,-1e9)-(1e9,1e9)`. -/
def Image.Bounds : Image → Rectangle
  | .nrgba p => p.Rect
  | .uniform _ => ⟨⟨-1000000000, -1000000000⟩, ⟨1000000000, 1000000000⟩⟩

/-- Go `Image.At`. -/
def Image.At : Image → Int → Int → Option Color
  | .nrgba p, x, y => p.NRGBAAt x y
  | .uniform c, _, _ => some c

/-- The function `cropImage`: crops `img` to `crop` through its `SubImage` method when it
has one, and returns the error `image does not support cropping` otherwise. -/
def cropImage (img : Image) (crop : Rectangle) : Outcome Image :=
  match img with
  | .nrgba p =>
    match p.SubImage crop with
    | some q => .ok (.nrgba q)
    | none => .fatal
  | .uniform _ => .error "image does not support cropping"

/-- The invariant of an `image.NRGBA` value: every pixel of the bounds lies in
`Pix` (as for an image made by `image.NewNRGBA` and its sub-images), and `Pix`
is a slice in memory, of a length below `2^63`. -/
def NRGBA.WellFormed (p : NRGBA) : Prop :=
  (p.Pix.length : Int) < 2 ^ 63 ∧
    (p.Rect.Empty = true ∨
      (4 * (p.Rect.Max.X - p.Rect.Min.X) ≤ p.Stride ∧
        (p.Rect.Max.Y - p.Rect.Min.Y - 1) * p.Stride + 4 * (p.Rect.Max.X - p.Rect.Min.X)
          ≤ p.Pix.length))

instance (p : NRGBA) : Decidable p.WellFormed := by unfold NRGBA.WellFormed; infer_instance

/-! ## `hash/crc32` -/

/-- Go `^x` on a `uint32`. -/
def not32 (x : Nat) : Nat := x ^^^ 0xFFFFFFFF

/-- The inner loop of `crc32.simplePopulateTable`: eight shift-and-xor steps on `crc`. -/
def crcTableEntry (poly i : Nat) : Nat :=
  (List.range 8).foldl
    (fun crc _ => if crc &&& 1 = 1 then (crc >>> 1) ^^^ poly else crc >>> 1) i

/-- Go `crc32.MakeTable(poly)` for a polynomial other than IEEE and Castagnoli
(`simpleMakeTable`): the 256-entry table. -/
def MakeTable (poly : Nat) : List Nat := (List.range 256).map (crcTableEntry poly)

/-- Go `crc32.simpleUpdate`: `crc = tab[byte(crc)^v] ^ (crc >> 8)` over the bytes. -/
def simpleUpdate (crc : Nat) (tab : List Nat) (p : List Nat) : Nat :=
  not32 (p.foldl (fun crc v => tab.getD ((crc % 256) ^^^ (v % 256)) 0 ^^^ (crc >>> 8)) (not32 crc))

/-- Go `crc32.Checksum(data, tab)`. -/
def Checksum (data : List Nat) (tab : List Nat) : Nat := simpleUpdate 0 tab data

/-! ## `fmt.Sprintf("%08x", v)` for an unsigned `v` -/

/-- The digit string `ldigits` of package `fmt`. -/
def ldigits : List Char := "0123456789abcdefx".toList

/-- The base-16 digit loop of `fmt.fmtInteger`: digits are produced from the
least significant one, in front of `buf`, while `u >= 16`; then the last one.
The first argument bounds the iterations (16 are enough for a `uint64`). -/
def hexLoop : Nat → Nat → List Char → List Char
  | 0, u, buf => ldigits.getD u '?' :: buf
  | fuel + 1, u, buf =>
    if u ≥ 16 then hexLoop fuel (u >>> 4) (ldigits.getD (u &&& 0xF) '?' :: buf)
    else ldigits.getD u '?' :: buf

/-- The zero padding of `fmt.fmtInteger` up to `prec` digits (flag `0` and a width). -/
def padZeros (prec : Nat) (buf : List Char) : List Char :=
  List.replicate (prec - buf.length) '0' ++ buf

/-- Go `fmt.Sprintf("%08x", n)` for an unsigned integer `n`. -/
def Sprintf08x (n : Nat) : String := String.mk (padZeros 8 (hexLoop 16 n []))

/-- The value of a hexadecimal digit (lowercase), `none` for any other character. -/
def hexVal (c : Char) : Option Nat :=
  if '0' ≤ c ∧ c ≤ '9' then some (c.toNat - '0'.toNat)
  else if 'a' ≤ c ∧ c ≤ 'f' then some (c.toNat - 'a'.toNat + 10)
  else none

/-- The number a string of lowercase hexadecimal digits denotes in base 16. -/
def parseHex (s : String) : Option Nat :=
  s.data.foldl (fun acc c => acc.bind fun a => (hexVal c).map fun d => a * 16 + d) (some 0)

/-- The `k` lowest hexadecimal digits of `n`, the most significant first. -/
def hexDigits : Nat → Nat → List Char
  | 0, _ => []
  | k + 1, n => hexDigits k (n / 16) ++ [ldigits.getD (n % 16) '?']

/-! ## `net/http.DetectContentType`, `encoding/base64` -/

/-- The signature `"\x89PNG\x0D\x0A\x1A\x0A"` of `image/png`. -/
def pngSignature : List Nat := [0x89, 0x50, 0x4E, 0x47, 0x0D, 0x0A, 0x1A, 0x0A]

/-- The signature `"\xFF\xD8\xFF"` of `image/jpeg`. -/
def jpegSignature : List Nat := [0xFF, 0xD8, 0xFF]

/-- The content types `imageToBase64` tells apart. -/
inductive Mime where
  | jpeg
  | png
  | other
  deriving DecidableEq, Repr

/-- Go `http.DetectContentType`, up to what the `switch` of `imageToBase64`
reads of it: `image/png` and `image/jpeg` are returned exactly for data that
starts with the signature (no earlier entry of `sniffSignatures` matches such
data), and `other` stands for every other content type. -/
def DetectContentType (data : List Nat) : Mime :=
  if pngSignature.isPrefixOf data then Mime.png
  else if jpegSignature.isPrefixOf data then Mime.jpeg
  else Mime.other

/-- The alphabet of `base64.StdEncoding`. -/
def encodeStd : List Char :=
  "ABCDEFGHIJKLMNOPQRSTUVWXYZabcdefghijklmnopqrstuvwxyz0123456789+/".toList

/-- The character of `base64.StdEncoding` for a 6-bit value. -/
def b64Char (v : Nat) : Char := encodeStd.getD (v % 64) '='

/-- Go `base64.StdEncoding.EncodeToString`, as a list of characters: three
bytes give four characters, a remainder of one or two bytes is padded with `=`. -/
def base64Encode : List Nat → List Char
  | a :: b :: c :: rest =>
    let v := (a % 256) * 65536 + (b % 256) * 256 + c % 256
    b64Char (v / 262144) :: b64Char (v / 4096) :: b64Char (v / 64) :: b64Char v ::
      base64Encode rest
  | [a, b] =>
    let v := (a % 256) * 65536 + (b % 256) * 256
    [b64Char (v / 262144), b64Char (v / 4096), b64Char (v / 64), '=']
  | [a] =>
    let v := (a % 256) * 65536
    [b64Char (v / 262144), b64Char (v / 4096), '=', '=']
  | [] => []

/-! ## The encoders `image/jpeg` and `image/png` -/

/-- The compressed streams of the two encoders, which are not modelled: what
`jpeg.Encode` writes after the start-of-image marker and the marker of the
quantization tables, for an image and a quality, and what `png.Encoder.Encode`
writes after the PNG header, for an image and a compression level. -/
structure Codec where
  jpegStream : Image → Int → List Nat
  pngStream : Image → Int → List Nat

/-- Go `jpeg.DefaultQuality`. -/
def DefaultQuality : Int := 75

/-- Go `jpeg.Encode(w, m, o)`, as the bytes written to `w` (`o` is the
`Quality` of the `*jpeg.Options`, `none` for nil): nothing for an image of
65536 pixels or more in width or height (the error is returned before
anything is written); otherwise the quality is `DefaultQuality` for nil options
and `o` clipped to `[1, 100]` otherwise, and the stream starts with the markers
`FF D8` (start of image) and `FF DB` (quantization tables). -/
def jpegEncode (c : Codec) (m : Image) (o : Option Int) : List Nat :=
  let b := m.Bounds
  if b.Dx ≥ 65536 ∨ b.Dy ≥ 65536 then []
  else
    let quality : Int :=
      match o with
      | none => DefaultQuality
      | some q => if q < 1 then 1 else if q > 100 then 100 else q
    [0xFF, 0xD8, 0xFF, 0xDB] ++ c.jpegStream m quality

/-- Go `Encode(w, m)` of a `png.Encoder` with `CompressionLevel: level`, as the bytes
written to `w`: nothing for an image of width or height `<= 0` or `>= 2^32`
(the error is returned before anything is written); otherwise the PNG header
followed by the chunks. -/
def pngEncode (c : Codec) (level : Int) (m : Image) : List Nat :=
  let mw := m.Bounds.Dx
  let mh := m.Bounds.Dy
  if mw ≤ 0 ∨ mh ≤ 0 ∨ mw ≥ 4294967296 ∨ mh ≥ 4294967296 then []
  else pngSignature ++ c.pngStream m level

/-! ## The file system, `imageToBase64`, `crcHash`, `writeImage` -/

/-- The state of the file system: the contents of the file at each path (`none`
where there is no file), and the paths at which `os.Create` fails (a missing
directory, a path that is a directory, no permission). -/
structure FS where
  files : String → Option (List Nat)
  createFails : String → Bool

/-- Go `os.Create(path)`: creates the file or truncates it; `none` on an error. -/
def osCreate (fs : FS) (path : String) : Option FS :=
  if fs.createFails path then none
  else some ⟨fun q => if q = path then some [] else fs.files q, fs.createFails⟩

/-- A `Write` of `data` to the file opened at `path`: appends to its contents. -/
def fileWrite (fs : FS) (path : String) (data : List Nat) : FS :=
  ⟨fun q => if q = path then some ((fs.files path).getD [] ++ data) else fs.files q,
    fs.createFails⟩

/-- The function `imageToBase64`: reads the file, finds its content type and returns the
data URI of its contents; `log.Fatal` when the file cannot be read or is
neither a JPEG nor a PNG. -/
def imageToBase64 (fs : FS) (file : String) : Outcome String :=
  match fs.files file with
  | none => .fatal
  | some bytes =>
    match DetectContentType bytes with
    | .jpeg => .ok ("data:image/jpeg;base64," ++ String.mk (base64Encode bytes))
    | .png => .ok ("data:image/png;base64," ++ String.mk (base64Encode bytes))
    | .other => .fatal

/-- The buffer `crcHash` fills before it takes the checksum: the JPEG encoding
with nil options, the PNG encoding with `CompressionLevel: 0`, or nothing. -/
def crcHashBuf (c : Codec) (img : Image) (ext : String) : List Nat :=
  if ext = ".jpg" ∨ ext = ".jpeg" then jpegEncode c img none
  else if ext = ".png" then pngEncode c 0 img
  else []

/-- The function `crcHash`: the CRC-32 of the encoded image, with the table of `0xeb31d82e`. -/
def crcHash (c : Codec) (img : Image) (ext : String) : Nat :=
  Checksum (crcHashBuf c img ext) (MakeTable 0xeb31d82e)

/-- The path `dst_dir + "/" + hash + ext` that `writeImage` creates. -/
def targetPath (c : Codec) (img : Image) (dst_dir ext : String) : String :=
  dst_dir ++ "/" ++ Sprintf08x (crcHash c img ext) ++ ext

/-- The function `writeImage`: creates the file named after the checksum, encodes the image
into it (JPEG at quality 95, PNG at `CompressionLevel: 0`) and returns the data
URI read back from the file; the result comes with the file system after the
call. -/
def writeImage (c : Codec) (img : Image) (dst_dir ext : String) (fs : FS) :
    Outcome String × FS :=
  let hash := Sprintf08x (crcHash c img ext)
  match osCreate fs (dst_dir ++ "/" ++ hash ++ ext) with
  | none => (.fatal, fs)
  | some fs1 =>
    if ext = ".jpg" ∨ ext = ".jpeg" then
      let fs2 := fileWrite fs1 (dst_dir ++ "/" ++ hash ++ ext) (jpegEncode c img (some 95))
      (imageToBase64 fs2 (dst_dir ++ "/" ++ hash ++ ext), fs2)
    else if ext = ".png" then
      let fs2 := fileWrite fs1 (dst_dir ++ "/" ++ hash ++ ext) (pngEncode c 0 img)
      (imageToBase64 fs2 (dst_dir ++ "/" ++ hash ++ ext), fs2)
    else (.error "unsupported image format", fs1)

/-- The bytes `writeImage` encodes into the file it has created: the switch on
`ext` of `writeImage`, with nothing written in the default case. -/
def writtenBytes (c : Codec) (img : Image) (ext : String) : List Nat :=
  if ext = ".jpg" ∨ ext = ".jpeg" then jpegEncode c img (some 95)
  else if ext = ".png" then pngEncode c 0 img
  else []

/-- The data URI `imageToBase64` builds from the contents of a file. -/
def dataURI (bytes : List Nat) : Outcome String :=
  match DetectContentType bytes with
  | .jpeg => .ok ("data:image/jpeg;base64," ++ String.mk (base64Encode bytes))
  | .png => .ok ("data:image/png;base64," ++ String.mk (base64Encode bytes))
  | .other => .fatal

/-! ## Concrete inputs -/

/-- A stand-in for the compressed streams, to run the definitions on concrete
inputs: the quality (or level) as one byte, then the pixels as they are. -/
def rawCodec : Codec where
  jpegStream := fun m q => q.toNat % 256 ::
    (match m with
     | .nrgba p => p.Pix
     | .uniform col => [col.R, col.G, col.B, col.A])
  pngStream := fun m l => l.toNat % 256 ::
    (match m with
     | .nrgba p => p.Pix
     | .uniform col => [col.R, col.G, col.B, col.A])

/-- A 2 by 2 image as `image.NewNRGBA(image.Rect(0, 0, 2, 2))` lays it out. -/
def image2x2 : NRGBA :=
  ⟨[1, 2, 3, 4, 5, 6, 7, 8, 9, 10, 11, 12, 13, 14, 15, 16], 8, ⟨⟨0, 0⟩, ⟨2, 2⟩⟩⟩

/-- The zero value of `image.NRGBA`, which `SubImage` returns for an empty clip. -/
def emptyNRGBA : NRGBA := ⟨[], 0, ZR⟩

/-- A destination directory `dst` that holds one file, `dst/4d39af35.png`, of
the single byte 0. -/
def foreignDir : FS :=
  ⟨fun q => if q = "dst/4d39af35.png" then some [0] else none, fun _ => false⟩

/-- A destination directory `dst` with no file in it, in which files can be created. -/
def emptyDir : FS := ⟨fun _ => none, fun _ => false⟩

/-! ## Lemmas on machine integers and on `GetFaceRect` -/

theorem wrap64_eq_self {x : Int} (h : InInt64 x) : wrap64 x = x := by
  unfold wrap64; unfold InInt64 at h; omega

theorem quoInt_two_of_nonneg {s : Int} (hs : 0 ≤ s) (hr : InInt64 s) :
    quoInt s 2 = Int.fdiv s 2 := by
  have h1 : Int.tdiv s 2 = s / 2 := Int.tdiv_eq_ediv hs (by decide)
  have h2 : Int.fdiv s 2 = s / 2 := Int.fdiv_eq_ediv s (by decide)
  unfold quoInt
  rw [h1, h2]
  apply wrap64_eq_self
  unfold InInt64 at *
  omega

theorem quoInt_two_of_nonpos {s : Int} (hs : s ≤ 0) (hr : InInt64 s) :
    quoInt s 2 = -(Int.fdiv (-s) 2) := by
  have h2 : Int.fdiv (-s) 2 = (-s) / 2 := Int.fdiv_eq_ediv (-s) (by decide)
  have h1 : Int.tdiv s 2 = -((-s) / 2) := by
    have := Int.tdiv_eq_ediv (a := -s) (b := 2) (by omega) (by decide)
    rw [← this, Int.neg_tdiv, neg_neg]
  unfold quoInt
  rw [h1, h2]
  apply wrap64_eq_self
  unfold InInt64 at *
  omega

theorem foldl_getFaceRectStep (faces : List Detection) (acc : List Rectangle) :
    faces.foldl getFaceRectStep acc =
      acc ++ (faces.filter (fun f => F32.gt f.Q qThresh)).map faceRect := by
  induction faces generalizing acc with
  | nil => simp
  | cons f fs ih =>
    simp only [List.foldl_cons, ih, getFaceRectStep, List.filter_cons]
    by_cases h : F32.gt f.Q qThresh = true
    · simp [h]
    · simp [h]

theorem GetFaceRect_eq_filter_map (faces : List Detection) :
    GetFaceRect faces = (faces.filter (fun f => F32.gt f.Q qThresh)).map faceRect := by
  unfold GetFaceRect
  rw [foldl_getFaceRectStep]; simp

theorem GetFaceRect_append_cons (pre post : List Detection) (face : Detection)
    (hq : F32.gt face.Q qThresh = true) :
    GetFaceRect (pre ++ face :: post) = GetFaceRect pre ++ faceRect face :: GetFaceRect post := by
  simp [GetFaceRect_eq_filter_map, List.filter_cons, hq]

theorem F32_le_not_gt (a b : F32) (h : F32.le a b = true) : F32.gt a b = false := by
  cases a <;> cases b <;> simp_all [F32.le, F32.gt]

/-! ## `GetFaceRect`: threshold, region derivation, scale -/

/-- C1. Threshold filtering in `GetFaceRect` (threshold 5.0): the rectangles
returned are those of the detections with `Q > 5.0`, one each and in the order
of the detections; there are as many as there are such detections; a detection
with `Q <= 5.0` is not among them; the empty list gives the empty list. -/
theorem GetFaceRect_threshold (faces : List Detection) :
    GetFaceRect faces = (faces.filter (fun f => F32.gt f.Q (F32.finite 5))).map faceRect ∧
    (GetFaceRect faces).length = faces.countP (fun f => F32.gt f.Q (F32.finite 5)) ∧
    (∀ f : Detection, F32.le f.Q (F32.finite 5) = true → F32.gt f.Q (F32.finite 5) = false) ∧
    GetFaceRect [] = [] := by
  refine ⟨GetFaceRect_eq_filter_map faces, ?_, fun f h => F32_le_not_gt _ _ h, rfl⟩
  rw [GetFaceRect_eq_filter_map, List.length_map, List.countP_eq_length_filter]
  rfl

/-- C2. Region derivation in `GetFaceRect`: a detection with score above 5.0 and
positive scale, whose corner coordinates do not overflow, contributes (at its
place in the output) the rectangle `col - scale/2, row - scale/2,
col + scale/2, row + scale/2` with floor division; the detection
`row 100, col 100, scale 40, score 10` gives `(80,80)-(120,120)`. -/
theorem GetFaceRect_region (pre post : List Detection) (face : Detection)
    (hq : F32.gt face.Q (F32.finite 5) = true) (hs : 0 < face.Scale)
    (hscale : InInt64 face.Scale)
    (hminX : InInt64 (face.Col - Int.fdiv face.Scale 2))
    (hminY : InInt64 (face.Row - Int.fdiv face.Scale 2))
    (hmaxX : InInt64 (face.Col + Int.fdiv face.Scale 2))
    (hmaxY : InInt64 (face.Row + Int.fdiv face.Scale 2)) :
    GetFaceRect (pre ++ face :: post) =
        GetFaceRect pre ++
          (⟨⟨face.Col - Int.fdiv face.Scale 2, face.Row - Int.fdiv face.Scale 2⟩,
            ⟨face.Col + Int.fdiv face.Scale 2, face.Row + Int.fdiv face.Scale 2⟩⟩ : Rectangle)
          :: GetFaceRect post ∧
      GetFaceRect [⟨100, 100, 40, F32.finite 10⟩] = [⟨⟨80, 80⟩, ⟨120, 120⟩⟩] := by
  refine ⟨?_, by decide⟩
  rw [GetFaceRect_append_cons pre post face hq]
  have hh : 0 ≤ Int.fdiv face.Scale 2 := by
    rw [Int.fdiv_eq_ediv _ (by decide)]; omega
  have hrect : faceRect face =
      (⟨⟨face.Col - Int.fdiv face.Scale 2, face.Row - Int.fdiv face.Scale 2⟩,
        ⟨face.Col + Int.fdiv face.Scale 2, face.Row + Int.fdiv face.Scale 2⟩⟩ : Rectangle) := by
    unfold faceRect subInt addInt
    rw [quoInt_two_of_nonneg (le_of_lt hs) hscale, wrap64_eq_self hminX, wrap64_eq_self hminY,
      wrap64_eq_self hmaxX, wrap64_eq_self hmaxY]
    unfold Rect
    have h1 : ¬ (face.Col - Int.fdiv face.Scale 2 > face.Col + Int.fdiv face.Scale 2) := by omega
    have h2 : ¬ (face.Row - Int.fdiv face.Scale 2 > face.Row + Int.fdiv face.Scale 2) := by omega
    simp [h1, h2]
  rw [hrect]

/-- C2, at a concrete input: the theorem `GetFaceRect_region` applied to a
detection of scale 21 between two others. -/
theorem GetFaceRect_region_witness :
    GetFaceRect ([⟨7, 9, 2, F32.finite 1⟩] ++ ⟨30, 50, 21, F32.posInf⟩ :: [⟨5, 5, 4, F32.finite 6⟩]) =
        GetFaceRect [⟨7, 9, 2, F32.finite 1⟩] ++
          (⟨⟨50 - Int.fdiv 21 2, 30 - Int.fdiv 21 2⟩,
            ⟨50 + Int.fdiv 21 2, 30 + Int.fdiv 21 2⟩⟩ : Rectangle)
          :: GetFaceRect [⟨5, 5, 4, F32.finite 6⟩] ∧
      GetFaceRect [⟨100, 100, 40, F32.finite 10⟩] = [⟨⟨80, 80⟩, ⟨120, 120⟩⟩] :=
  GetFaceRect_region [⟨7, 9, 2, F32.finite 1⟩] [⟨5, 5, 4, F32.finite 6⟩]
    ⟨30, 50, 21, F32.posInf⟩ (by decide) (by decide) (by decide) (by decide) (by decide)
    (by decide) (by decide)

/-- C10 fails as stated: `GetFaceRect` returns a rectangle for a detection of
scale 0 and for one of scale -5 (both of score 10), so the number of rectangles
is not the number of detections with score above 5.0 and positive scale. -/
theorem GetFaceRect_keeps_nonpositive_scale :
    ¬ (∀ faces : List Detection, (GetFaceRect faces).length =
        faces.countP (fun f => F32.gt f.Q (F32.finite 5) && decide (0 < f.Scale))) ∧
    GetFaceRect [⟨20, 10, 0, F32.finite 10⟩, ⟨20, 10, -5, F32.finite 10⟩] =
      [⟨⟨10, 20⟩, ⟨10, 20⟩⟩, ⟨⟨8, 18⟩, ⟨12, 22⟩⟩] := by
  refine ⟨fun h => ?_, by decide⟩
  have := h [⟨20, 10, 0, F32.finite 10⟩]
  revert this
  decide

/-- C10, amended: `GetFaceRect` does not read the scale to filter. A detection
with score above 5.0 and scale `<= 0` (no overflow) contributes one rectangle,
`col - h, row - h, col + h, row + h` with `h = (-scale)/2` (`image.Rect` swaps
the corners); it is an empty rectangle when the scale is 0 or -1. -/
theorem GetFaceRect_nonpositive_scale_region (pre post : List Detection) (face : Detection)
    (hq : F32.gt face.Q (F32.finite 5) = true) (hs : face.Scale ≤ 0)
    (hscale : InInt64 face.Scale)
    (hminX : InInt64 (face.Col - Int.fdiv (-face.Scale) 2))
    (hminY : InInt64 (face.Row - Int.fdiv (-face.Scale) 2))
    (hmaxX : InInt64 (face.Col + Int.fdiv (-face.Scale) 2))
    (hmaxY : InInt64 (face.Row + Int.fdiv (-face.Scale) 2)) :
    GetFaceRect (pre ++ face :: post) =
        GetFaceRect pre ++
          (⟨⟨face.Col - Int.fdiv (-face.Scale) 2, face.Row - Int.fdiv (-face.Scale) 2⟩,
            ⟨face.Col + Int.fdiv (-face.Scale) 2, face.Row + Int.fdiv (-face.Scale) 2⟩⟩ :
              Rectangle)
          :: GetFaceRect post := by
  rw [GetFaceRect_append_cons pre post face hq]
  have hh : 0 ≤ Int.fdiv (-face.Scale) 2 := by
    rw [Int.fdiv_eq_ediv _ (by decide)]; omega
  have hrect : faceRect face =
      (⟨⟨face.Col - Int.fdiv (-face.Scale) 2, face.Row - Int.fdiv (-face.Scale) 2⟩,
        ⟨face.Col + Int.fdiv (-face.Scale) 2, face.Row + Int.fdiv (-face.Scale) 2⟩⟩ :
          Rectangle) := by
    unfold faceRect subInt addInt
    rw [quoInt_two_of_nonpos hs hscale]
    have e1 : face.Col - -Int.fdiv (-face.Scale) 2 = face.Col + Int.fdiv (-face.Scale) 2 := by
      omega
    have e2 : face.Col + -Int.fdiv (-face.Scale) 2 = face.Col - Int.fdiv (-face.Scale) 2 := by
      omega
    have e3 : face.Row - -Int.fdiv (-face.Scale) 2 = face.Row + Int.fdiv (-face.Scale) 2 := by
      omega
    have e4 : face.Row + -Int.fdiv (-face.Scale) 2 = face.Row - Int.fdiv (-face.Scale) 2 := by
      omega
    rw [e1, e2, e3, e4, wrap64_eq_self hminX, wrap64_eq_self hminY,
      wrap64_eq_self hmaxX, wrap64_eq_self hmaxY]
    unfold Rect
    by_cases h0 : Int.fdiv (-face.Scale) 2 = 0
    · simp [h0]
    · have h1 : face.Col + Int.fdiv (-face.Scale) 2 > face.Col - Int.fdiv (-face.Scale) 2 := by
        omega
      have h2 : face.Row + Int.fdiv (-face.Scale) 2 > face.Row - Int.fdiv (-face.Scale) 2 := by
        omega
      simp [h1, h2]
  rw [hrect]

/-- C10 amended, at a concrete input: a detection of scale -5 and score 10. -/
theorem GetFaceRect_nonpositive_scale_region_witness :
    GetFaceRect ([] ++ ⟨20, 10, -5, F32.finite 10⟩ :: []) =
        GetFaceRect [] ++
          (⟨⟨10 - Int.fdiv (-(-5)) 2, 20 - Int.fdiv (-(-5)) 2⟩,
            ⟨10 + Int.fdiv (-(-5)) 2, 20 + Int.fdiv (-(-5)) 2⟩⟩ : Rectangle)
          :: GetFaceRect [] :=
  GetFaceRect_nonpositive_scale_region [] [] ⟨20, 10, -5, F32.finite 10⟩
    (by decide) (by decide) (by decide) (by decide) (by decide) (by decide) (by decide)


/-! ## `cropImage` -/

theorem ite_lt_eq_max (a b : Int) : (if a < b then b else a) = max a b := by
  split_ifs <;> omega

theorem ite_gt_eq_min (a b : Int) : (if a > b then b else a) = min a b := by
  split_ifs <;> omega

theorem Point_In_iff (x y : Int) (r : Rectangle) :
    Point.In ⟨x, y⟩ r = true ↔ r.Min.X ≤ x ∧ x < r.Max.X ∧ r.Min.Y ≤ y ∧ y < r.Max.Y := by
  simp [Point.In, and_assoc]

theorem Rectangle_Empty_iff (r : Rectangle) :
    r.Empty = true ↔ r.Max.X ≤ r.Min.X ∨ r.Max.Y ≤ r.Min.Y := by
  simp [Rectangle.Empty]

theorem Intersect_eq (r s : Rectangle) :
    r.Intersect s =
      if min r.Max.X s.Max.X ≤ max r.Min.X s.Min.X ∨ min r.Max.Y s.Max.Y ≤ max r.Min.Y s.Min.Y
      then ZR
      else ⟨⟨max r.Min.X s.Min.X, max r.Min.Y s.Min.Y⟩,
            ⟨min r.Max.X s.Max.X, min r.Max.Y s.Max.Y⟩⟩ := by
  unfold Rectangle.Intersect
  simp only [ite_lt_eq_max, ite_gt_eq_min, Rectangle_Empty_iff]

theorem pixOffset_exact (a b S : Int) (ha : 0 ≤ a) (ha' : a < 2 ^ 63) (hb : 0 ≤ b)
    (hS : 0 ≤ S) (hsum : a * S + b * 4 + 4 < 2 ^ 63) :
    addInt (mulInt (wrap64 a) S) (mulInt (wrap64 b) 4) = a * S + b * 4 := by
  have hm : 0 ≤ a * S := mul_nonneg ha hS
  have e1 : wrap64 a = a := wrap64_eq_self ⟨by omega, ha'⟩
  have e2 : wrap64 b = b := wrap64_eq_self ⟨by omega, by omega⟩
  unfold addInt mulInt
  rw [e1, e2]
  have e3 : wrap64 (a * S) = a * S := wrap64_eq_self ⟨by omega, by omega⟩
  have e4 : wrap64 (b * 4) = b * 4 := wrap64_eq_self ⟨by omega, by omega⟩
  rw [e3, e4]
  exact wrap64_eq_self ⟨by omega, by omega⟩


theorem wf_pixel_bounds (p : NRGBA) (hwf : p.WellFormed) (x y : Int)
    (hx0 : p.Rect.Min.X ≤ x) (hx1 : x < p.Rect.Max.X)
    (hy0 : p.Rect.Min.Y ≤ y) (hy1 : y < p.Rect.Max.Y) :
    0 ≤ p.Stride ∧ y - p.Rect.Min.Y < 2 ^ 63 ∧
      (y - p.Rect.Min.Y) * p.Stride + (x - p.Rect.Min.X) * 4 + 4 ≤ p.Pix.length ∧
      (p.Pix.length : Int) < 2 ^ 63 := by
  obtain ⟨hlen, hrect⟩ := hwf
  rcases hrect with hE | ⟨hstride, hpix⟩
  · rw [Rectangle_Empty_iff] at hE; omega
  · have h4 : 4 ≤ p.Stride := by omega
    have hS0 : 0 ≤ p.Stride := by omega
    have h1 : (y - p.Rect.Min.Y) * p.Stride ≤ (p.Rect.Max.Y - p.Rect.Min.Y - 1) * p.Stride :=
      mul_le_mul_of_nonneg_right (by omega) hS0
    have h2 : (y - p.Rect.Min.Y) * 4 ≤ (y - p.Rect.Min.Y) * p.Stride :=
      mul_le_mul_of_nonneg_left h4 (by omega)
    refine ⟨hS0, ?_, ?_, hlen⟩ <;> omega

theorem NRGBAAt_of_offset (p : NRGBA) (x y o : Int) (hin : Point.In ⟨x, y⟩ p.Rect = true)
    (ho : p.PixOffset x y = o) (h0 : 0 ≤ o) (h1 : o + 4 ≤ p.Pix.length)
    (h2 : (p.Pix.length : Int) < 2 ^ 63) :
    p.NRGBAAt x y =
      some ⟨((p.Pix.drop o.toNat).take 4).getD 0 0, ((p.Pix.drop o.toNat).take 4).getD 1 0,
        ((p.Pix.drop o.toNat).take 4).getD 2 0, ((p.Pix.drop o.toNat).take 4).getD 3 0⟩ := by
  have e : addInt o 4 = o + 4 := wrap64_eq_self ⟨by omega, by omega⟩
  unfold NRGBA.NRGBAAt
  simp only [hin, ho, e]
  have hc : 0 ≤ o ∧ o + 4 ≤ (p.Pix.length : Int) ∧ o ≤ o + 4 := ⟨h0, h1, by omega⟩
  simp [hc]


theorem subImage_pixels (p : NRGBA) (hwf : p.WellFormed) (mx my Mx My : Int)
    (hx0 : p.Rect.Min.X ≤ mx) (hx1 : mx < Mx) (hx2 : Mx ≤ p.Rect.Max.X)
    (hy0 : p.Rect.Min.Y ≤ my) (hy1 : my < My) (hy2 : My ≤ p.Rect.Max.Y) :
    p.PixOffset mx my = (my - p.Rect.Min.Y) * p.Stride + (mx - p.Rect.Min.X) * 4 ∧
      0 ≤ (my - p.Rect.Min.Y) * p.Stride + (mx - p.Rect.Min.X) * 4 ∧
      (my - p.Rect.Min.Y) * p.Stride + (mx - p.Rect.Min.X) * 4 ≤ p.Pix.length ∧
      ∀ x y : Int, mx ≤ x → x < Mx → my ≤ y → y < My →
        ∃ col : Color,
          (⟨p.Pix.drop ((my - p.Rect.Min.Y) * p.Stride + (mx - p.Rect.Min.X) * 4).toNat,
            p.Stride, ⟨⟨mx, my⟩, ⟨Mx, My⟩⟩⟩ : NRGBA).NRGBAAt x y = some col ∧
          p.NRGBAAt x y = some col := by
  obtain ⟨hS0, hcy, hcsum, hlen⟩ := wf_pixel_bounds p hwf mx my
    (by omega) (by omega) (by omega) (by omega)
  have hmS : 0 ≤ (my - p.Rect.Min.Y) * p.Stride := mul_nonneg (by omega) hS0
  have hi : p.PixOffset mx my = (my - p.Rect.Min.Y) * p.Stride + (mx - p.Rect.Min.X) * 4 := by
    unfold NRGBA.PixOffset subInt
    exact pixOffset_exact _ _ _ (by omega) hcy (by omega) hS0 (by omega)
  refine ⟨hi, by omega, by omega, ?_⟩
  intro x y hxa hxb hya hyb
  obtain ⟨_, hpy, hpsum, _⟩ := wf_pixel_bounds p hwf x y
    (by omega) (by omega) (by omega) (by omega)
  have hyS : 0 ≤ (y - my) * p.Stride := mul_nonneg (by omega) hS0
  have hadd : (y - my) * p.Stride + (my - p.Rect.Min.Y) * p.Stride =
      (y - p.Rect.Min.Y) * p.Stride := by ring
  have hpS : 0 ≤ (y - p.Rect.Min.Y) * p.Stride := mul_nonneg (by omega) hS0
  have hop : p.PixOffset x y = (y - p.Rect.Min.Y) * p.Stride + (x - p.Rect.Min.X) * 4 := by
    unfold NRGBA.PixOffset subInt
    exact pixOffset_exact _ _ _ (by omega) hpy (by omega) hS0 (by omega)
  have hoq : (⟨p.Pix.drop ((my - p.Rect.Min.Y) * p.Stride + (mx - p.Rect.Min.X) * 4).toNat,
      p.Stride, ⟨⟨mx, my⟩, ⟨Mx, My⟩⟩⟩ : NRGBA).PixOffset x y =
      (y - my) * p.Stride + (x - mx) * 4 := by
    unfold NRGBA.PixOffset subInt
    dsimp only
    exact pixOffset_exact _ _ _ (by omega) (by omega) (by omega) hS0 (by omega)
  have hq := NRGBAAt_of_offset _ x y _ (by rw [Point_In_iff]; exact ⟨hxa, hxb, hya, hyb⟩) hoq
    (by omega) (by simp only [List.length_drop]; omega)
    (by simp only [List.length_drop]; omega)
  have hp' := NRGBAAt_of_offset p x y _
    (by rw [Point_In_iff]; exact ⟨by omega, by omega, by omega, by omega⟩) hop
    (by omega) (by omega) (by omega)
  have hdrop : (p.Pix.drop ((my - p.Rect.Min.Y) * p.Stride + (mx - p.Rect.Min.X) * 4).toNat).drop
      ((y - my) * p.Stride + (x - mx) * 4).toNat =
      p.Pix.drop ((y - p.Rect.Min.Y) * p.Stride + (x - p.Rect.Min.X) * 4).toNat := by
    rw [List.drop_drop]
    congr 1
    omega
  simp only [hdrop] at hq
  exact ⟨_, hq, hp'⟩

/-- C3. Clipping in `cropImage`: for a well-formed `image.NRGBA` source and a
region that has a point in common with the source bounds, `cropImage` returns
without error an image whose bounds are the intersection of the region with
the source bounds (exactly the points of both) and whose pixel at every point
of those bounds is the source pixel at the same coordinates. -/
theorem cropImage_clips (p : NRGBA) (crop : Rectangle) (hwf : p.WellFormed)
    (hne : ∃ x y : Int, Point.In ⟨x, y⟩ crop = true ∧ Point.In ⟨x, y⟩ p.Rect = true) :
    ∃ img : Image, cropImage (Image.nrgba p) crop = Outcome.ok img ∧
      img.Bounds = ⟨⟨max crop.Min.X p.Rect.Min.X, max crop.Min.Y p.Rect.Min.Y⟩,
                    ⟨min crop.Max.X p.Rect.Max.X, min crop.Max.Y p.Rect.Max.Y⟩⟩ ∧
      (∀ x y : Int, Point.In ⟨x, y⟩ img.Bounds = true ↔
        (Point.In ⟨x, y⟩ crop = true ∧ Point.In ⟨x, y⟩ p.Rect = true)) ∧
      (∀ x y : Int, Point.In ⟨x, y⟩ img.Bounds = true →
        ∃ col : Color, img.At x y = some col ∧ (Image.nrgba p).At x y = some col) := by
  obtain ⟨x0, y0, hc, hp⟩ := hne
  rw [Point_In_iff] at hc hp
  have hI : crop.Intersect p.Rect =
      ⟨⟨max crop.Min.X p.Rect.Min.X, max crop.Min.Y p.Rect.Min.Y⟩,
        ⟨min crop.Max.X p.Rect.Max.X, min crop.Max.Y p.Rect.Max.Y⟩⟩ := by
    rw [Intersect_eq, if_neg]
    omega
  have hnE : (⟨⟨max crop.Min.X p.Rect.Min.X, max crop.Min.Y p.Rect.Min.Y⟩,
        ⟨min crop.Max.X p.Rect.Max.X, min crop.Max.Y p.Rect.Max.Y⟩⟩ : Rectangle).Empty
      = false := by
    rw [Bool.eq_false_iff, Ne, Rectangle_Empty_iff]
    dsimp only
    omega
  obtain ⟨hi, hi0, hi1, hpix⟩ := subImage_pixels p hwf
    (max crop.Min.X p.Rect.Min.X) (max crop.Min.Y p.Rect.Min.Y)
    (min crop.Max.X p.Rect.Max.X) (min crop.Max.Y p.Rect.Max.Y)
    (by omega) (by omega) (by omega) (by omega) (by omega) (by omega)
  refine ⟨Image.nrgba ⟨p.Pix.drop ((max crop.Min.Y p.Rect.Min.Y - p.Rect.Min.Y) * p.Stride +
        (max crop.Min.X p.Rect.Min.X - p.Rect.Min.X) * 4).toNat, p.Stride,
      ⟨⟨max crop.Min.X p.Rect.Min.X, max crop.Min.Y p.Rect.Min.Y⟩,
        ⟨min crop.Max.X p.Rect.Max.X, min crop.Max.Y p.Rect.Max.Y⟩⟩⟩, ?_, rfl, ?_, ?_⟩
  · unfold cropImage NRGBA.SubImage
    simp only [hI, hnE, hi]
    simp [hi0, hi1]
  · intro x y
    simp only [Image.Bounds, Point_In_iff]
    omega
  · intro x y hxy
    simp only [Image.Bounds, Point_In_iff] at hxy
    exact hpix x y hxy.1 hxy.2.1 hxy.2.2.1 hxy.2.2.2


/-- C3, at a concrete input: the 2 by 2 image cropped to `(1,1)-(5,5)`. -/
theorem cropImage_clips_witness :
    image2x2.WellFormed ∧
    (∃ x y : Int, Point.In ⟨x, y⟩ ⟨⟨1, 1⟩, ⟨5, 5⟩⟩ = true ∧ Point.In ⟨x, y⟩ image2x2.Rect = true) ∧
    ∃ img : Image, cropImage (Image.nrgba image2x2) ⟨⟨1, 1⟩, ⟨5, 5⟩⟩ = Outcome.ok img ∧
      img.Bounds = ⟨⟨max 1 image2x2.Rect.Min.X, max 1 image2x2.Rect.Min.Y⟩,
                    ⟨min 5 image2x2.Rect.Max.X, min 5 image2x2.Rect.Max.Y⟩⟩ ∧
      (∀ x y : Int, Point.In ⟨x, y⟩ img.Bounds = true ↔
        (Point.In ⟨x, y⟩ ⟨⟨1, 1⟩, ⟨5, 5⟩⟩ = true ∧ Point.In ⟨x, y⟩ image2x2.Rect = true)) ∧
      (∀ x y : Int, Point.In ⟨x, y⟩ img.Bounds = true →
        ∃ col : Color, img.At x y = some col ∧ (Image.nrgba image2x2).At x y = some col) :=
  ⟨by decide, ⟨1, 1, by decide, by decide⟩,
    cropImage_clips image2x2 ⟨⟨1, 1⟩, ⟨5, 5⟩⟩ (by decide) ⟨1, 1, by decide, by decide⟩⟩

/-- C4 fails as stated: the region `(3,3)-(5,5)` has no point in common with the
2 by 2 image, and `cropImage` returns the zero image without an error. -/
theorem cropImage_empty_clip_no_error :
    (∀ x y : Int, ¬ (Point.In ⟨x, y⟩ ⟨⟨3, 3⟩, ⟨5, 5⟩⟩ = true ∧
        Point.In ⟨x, y⟩ image2x2.Rect = true)) ∧
    cropImage (Image.nrgba image2x2) ⟨⟨3, 3⟩, ⟨5, 5⟩⟩ = Outcome.ok (Image.nrgba emptyNRGBA) ∧
    (∀ msg : String, cropImage (Image.nrgba image2x2) ⟨⟨3, 3⟩, ⟨5, 5⟩⟩ ≠ Outcome.error msg) := by
  refine ⟨?_, by decide, ?_⟩
  · intro x y
    rw [Point_In_iff, Point_In_iff]
    simp only [image2x2]
    omega
  · intro msg h
    have h2 : cropImage (Image.nrgba image2x2) ⟨⟨3, 3⟩, ⟨5, 5⟩⟩ =
        Outcome.ok (Image.nrgba emptyNRGBA) := by decide
    rw [h2] at h
    cases h

/-- C4, amended: for an `image.NRGBA` source and a region whose clip against
the source bounds has zero or negative width or height, `cropImage` returns,
without error, the zero `image.NRGBA` (bounds `image.ZR`, which contain no
point); the only error `cropImage` returns is `image does not support
cropping`, for an image without a `SubImage` method. -/
theorem cropImage_empty_clip (p : NRGBA) (crop : Rectangle)
    (hempty : min crop.Max.X p.Rect.Max.X - max crop.Min.X p.Rect.Min.X ≤ 0 ∨
      min crop.Max.Y p.Rect.Max.Y - max crop.Min.Y p.Rect.Min.Y ≤ 0) :
    cropImage (Image.nrgba p) crop = Outcome.ok (Image.nrgba ⟨[], 0, ZR⟩) ∧
      (Image.nrgba ⟨[], 0, ZR⟩).Bounds = ZR ∧
      (∀ x y : Int, Point.In ⟨x, y⟩ ZR = false) ∧
      (∀ (img : Image) (r : Rectangle) (msg : String), cropImage img r = Outcome.error msg →
        msg = "image does not support cropping" ∧ ∃ c : Color, img = Image.uniform c) := by
  have hI : crop.Intersect p.Rect = ZR := by
    rw [Intersect_eq, if_pos]
    omega
  refine ⟨?_, rfl, ?_, ?_⟩
  · unfold cropImage NRGBA.SubImage
    simp only [hI]
    rfl
  · intro x y
    rw [Bool.eq_false_iff, Ne, Point_In_iff]
    simp only [ZR]
    omega
  · intro img r msg h
    cases img with
    | nrgba q =>
      simp only [cropImage] at h
      cases hq : q.SubImage r with
      | none => rw [hq] at h; cases h
      | some s => rw [hq] at h; cases h
    | uniform c =>
      simp only [cropImage, Outcome.error.injEq] at h
      exact ⟨h.symm, c, rfl⟩

/-- C4 amended, at a concrete input: a region to the left of the 2 by 2 image. -/
theorem cropImage_empty_clip_witness :
    cropImage (Image.nrgba image2x2) ⟨⟨-4, 0⟩, ⟨0, 2⟩⟩ = Outcome.ok (Image.nrgba ⟨[], 0, ZR⟩) ∧
      (Image.nrgba ⟨[], 0, ZR⟩).Bounds = ZR ∧
      (∀ x y : Int, Point.In ⟨x, y⟩ ZR = false) ∧
      (∀ (img : Image) (r : Rectangle) (msg : String), cropImage img r = Outcome.error msg →
        msg = "image does not support cropping" ∧ ∃ c : Color, img = Image.uniform c) :=
  cropImage_empty_clip image2x2 ⟨⟨-4, 0⟩, ⟨0, 2⟩⟩ (by decide)


/-! ## `crc32` and `fmt.Sprintf("%08x")`: the file name -/

theorem getD_of_forall {P : Nat → Prop} (l : List Nat) (i d : Nat) (hl : ∀ x ∈ l, P x)
    (hd : P d) : P (l.getD i d) := by
  induction l generalizing i with
  | nil => simpa using hd
  | cons a t ih =>
    cases i with
    | zero => simpa using hl a (List.mem_cons_self _ _)
    | succ j =>
      simpa using ih j (fun x hx => hl x (List.mem_cons_of_mem _ hx))

theorem crcTableEntry_lt (poly i : Nat) (hp : poly < 2 ^ 32) (hi : i < 2 ^ 32) :
    crcTableEntry poly i < 2 ^ 32 := by
  unfold crcTableEntry
  have step : ∀ (l : List Nat) (crc : Nat), crc < 2 ^ 32 →
      l.foldl (fun crc _ => if crc &&& 1 = 1 then (crc >>> 1) ^^^ poly else crc >>> 1) crc
        < 2 ^ 32 := by
    intro l
    induction l with
    | nil => intro crc h; simpa using h
    | cons a t ih =>
      intro crc h
      rw [List.foldl_cons]
      apply ih
      have hs : crc >>> 1 < 2 ^ 32 := by
        rw [Nat.shiftRight_eq_div_pow]; omega
      split_ifs
      · exact Nat.xor_lt_two_pow hs hp
      · exact hs
  exact step _ i hi

theorem MakeTable_lt (poly : Nat) (hp : poly < 2 ^ 32) (idx : Nat) :
    (MakeTable poly).getD idx 0 < 2 ^ 32 := by
  apply getD_of_forall (P := fun x => x < 2 ^ 32)
  · intro x hx
    unfold MakeTable at hx
    rw [List.mem_map] at hx
    obtain ⟨i, hi, rfl⟩ := hx
    rw [List.mem_range] at hi
    exact crcTableEntry_lt poly i hp (by omega)
  · decide

theorem Checksum_lt (data : List Nat) (poly : Nat) (hp : poly < 2 ^ 32) :
    Checksum data (MakeTable poly) < 2 ^ 32 := by
  unfold Checksum simpleUpdate
  have step : ∀ (l : List Nat) (crc : Nat), crc < 2 ^ 32 →
      l.foldl (fun crc v => (MakeTable poly).getD ((crc % 256) ^^^ (v % 256)) 0 ^^^ (crc >>> 8))
        crc < 2 ^ 32 := by
    intro l
    induction l with
    | nil => intro crc h; simpa using h
    | cons a t ih =>
      intro crc h
      rw [List.foldl_cons]
      apply ih
      apply Nat.xor_lt_two_pow (MakeTable_lt poly hp _)
      rw [Nat.shiftRight_eq_div_pow]; omega
  have h0 : not32 0 < 2 ^ 32 := by decide
  exact Nat.xor_lt_two_pow (step data _ h0) (by decide)

theorem crcHash_lt (c : Codec) (img : Image) (ext : String) : crcHash c img ext < 2 ^ 32 :=
  Checksum_lt _ _ (by decide)


theorem length_hexDigits (k n : Nat) : (hexDigits k n).length = k := by
  induction k generalizing n with
  | zero => rfl
  | succ k ih => simp [hexDigits, ih]

theorem hexDigits_zero (d : Nat) : hexDigits d 0 = List.replicate d '0' := by
  induction d with
  | zero => rfl
  | succ d ih =>
    rw [hexDigits, Nat.zero_div, ih, List.replicate_succ']
    rfl

theorem hexDigits_add (m d u : Nat) (hu : u < 16 ^ m) :
    hexDigits (d + m) u = List.replicate d '0' ++ hexDigits m u := by
  induction m generalizing u with
  | zero =>
    have : u = 0 := by simpa using hu
    subst this
    simp [hexDigits_zero, hexDigits]
  | succ m ih =>
    have h16 : u / 16 < 16 ^ m := by
      rw [Nat.div_lt_iff_lt_mul (by decide)]
      rw [pow_succ] at hu
      exact hu
    rw [← Nat.add_assoc, hexDigits, ih _ h16, hexDigits, List.append_assoc]

theorem hexLoop_spec (k : Nat) : ∀ (fuel u : Nat) (buf : List Char), u < 16 ^ (k + 1) →
    k ≤ fuel → ∃ j, j ≤ k ∧ u < 16 ^ (j + 1) ∧ hexLoop fuel u buf = hexDigits (j + 1) u ++ buf := by
  induction k with
  | zero =>
    intro fuel u buf hu _
    refine ⟨0, le_refl _, hu, ?_⟩
    have hu' : u < 16 := by simpa using hu
    have hmod : u % 16 = u := Nat.mod_eq_of_lt hu'
    cases fuel with
    | zero => simp [hexLoop, hexDigits, hmod]
    | succ f =>
      have : ¬ (u ≥ 16) := by omega
      simp [hexLoop, hexDigits, hmod, this]
  | succ k ih =>
    intro fuel u buf hu hf
    cases fuel with
    | zero => omega
    | succ f =>
      by_cases h16 : u ≥ 16
      · have hdiv : u >>> 4 = u / 16 := by
          rw [Nat.shiftRight_eq_div_pow]
        have hand : u &&& 0xF = u % 16 := by
          have := Nat.and_pow_two_sub_one_eq_mod u 4
          simpa using this
        have hlt : u / 16 < 16 ^ (k + 1) := by
          rw [Nat.div_lt_iff_lt_mul (by decide)]
          rw [pow_succ] at hu
          exact hu
        obtain ⟨j, hj, hju, hloop⟩ := ih f (u / 16) (ldigits.getD (u % 16) '?' :: buf) hlt
          (by omega)
        refine ⟨j + 1, by omega, ?_, ?_⟩
        · rw [pow_succ]
          rw [Nat.div_lt_iff_lt_mul (by decide)] at hju
          exact hju
        · rw [hexLoop, if_pos h16, hdiv, hand, hloop]
          have e : hexDigits (j + 1 + 1) u =
              hexDigits (j + 1) (u / 16) ++ [ldigits.getD (u % 16) '?'] := rfl
          rw [e]
          simp
      · refine ⟨0, by omega, by omega, ?_⟩
        have hmod : u % 16 = u := Nat.mod_eq_of_lt (by omega)
        simp [hexLoop, hexDigits, hmod, h16]

theorem Sprintf08x_eq (n : Nat) (hn : n < 2 ^ 32) : Sprintf08x n = String.mk (hexDigits 8 n) := by
  obtain ⟨j, hj, hju, hloop⟩ := hexLoop_spec 7 16 n [] (by norm_num at hn ⊢; omega) (by decide)
  unfold Sprintf08x padZeros
  rw [hloop, List.append_nil, length_hexDigits]
  have := hexDigits_add (j + 1) (8 - (j + 1)) n hju
  rw [← this]
  congr 2
  omega


theorem ldigits_spec : ∀ d : Nat, d < 16 →
    ldigits.getD d '?' ∈ "0123456789abcdef".data ∧ hexVal (ldigits.getD d '?') = some d := by
  decide

theorem mem_hexDigits (k n : Nat) (ch : Char) (h : ch ∈ hexDigits k n) :
    ch ∈ "0123456789abcdef".data := by
  induction k generalizing n with
  | zero => simp [hexDigits] at h
  | succ k ih =>
    rw [hexDigits, List.mem_append] at h
    rcases h with h | h
    · exact ih _ h
    · rw [List.mem_singleton] at h
      rw [h]
      exact (ldigits_spec (n % 16) (Nat.mod_lt _ (by decide))).1

theorem foldl_hexDigits (k n a : Nat) :
    (hexDigits k n).foldl
        (fun acc c => acc.bind fun a => (hexVal c).map fun d => a * 16 + d) (some a) =
      some (a * 16 ^ k + n % 16 ^ k) := by
  induction k generalizing n with
  | zero => simp [hexDigits, Nat.mod_one]
  | succ k ih =>
    rw [hexDigits, List.foldl_append, ih]
    simp only [List.foldl_cons, List.foldl_nil, Option.some_bind,
      (ldigits_spec (n % 16) (Nat.mod_lt _ (by decide))).2, Option.map_some']
    congr 1
    rw [pow_succ', Nat.mod_mul]
    ring

theorem parseHex_Sprintf08x (n : Nat) (hn : n < 2 ^ 32) : parseHex (Sprintf08x n) = some n := by
  rw [Sprintf08x_eq n hn]
  unfold parseHex
  rw [foldl_hexDigits]
  simp only [zero_mul, zero_add]
  congr 1
  apply Nat.mod_eq_of_lt
  norm_num at hn ⊢
  exact hn

/-- C9. Key format: the file name `writeImage` builds is
`dst_dir/` followed by `Sprintf("%08x", crcHash(img, ext))` and `ext`; `crcHash` returns a
32-bit value; for every 32-bit value the formatted string has 8 characters,
all among `0123456789abcdef`, and denotes the value in base 16; two distinct
32-bit values give distinct strings; 4660 is formatted `00001234`. -/
theorem writeImage_key_format (c : Codec) (img : Image) (dst_dir ext : String) :
    targetPath c img dst_dir ext = dst_dir ++ "/" ++ Sprintf08x (crcHash c img ext) ++ ext ∧
    crcHash c img ext < 2 ^ 32 ∧
    (∀ n : Nat, n < 2 ^ 32 →
      (Sprintf08x n).length = 8 ∧
      (∀ ch ∈ (Sprintf08x n).data, ch ∈ "0123456789abcdef".data) ∧
      parseHex (Sprintf08x n) = some n) ∧
    (∀ n m : Nat, n < 2 ^ 32 → m < 2 ^ 32 → Sprintf08x n = Sprintf08x m → n = m) ∧
    Sprintf08x 4660 = "00001234" := by
  refine ⟨rfl, crcHash_lt c img ext, ?_, ?_, by decide⟩
  · intro n hn
    refine ⟨?_, ?_, parseHex_Sprintf08x n hn⟩
    · rw [Sprintf08x_eq n hn]
      exact length_hexDigits 8 n
    · intro ch hch
      rw [Sprintf08x_eq n hn] at hch
      exact mem_hexDigits 8 n ch hch
  · intro n m hn hm h
    have h1 := parseHex_Sprintf08x n hn
    have h2 := parseHex_Sprintf08x m hm
    rw [h] at h1
    rw [h1] at h2
    exact Option.some.inj h2


/-! ## `writeImage` -/

theorem imageToBase64_eq (fs : FS) (file : String) (bytes : List Nat)
    (h : fs.files file = some bytes) : imageToBase64 fs file = dataURI bytes := by
  unfold imageToBase64 dataURI
  rw [h]

theorem writeImage_create_fails (c : Codec) (img : Image) (dst_dir ext : String) (fs : FS)
    (h : fs.createFails (targetPath c img dst_dir ext) = true) :
    writeImage c img dst_dir ext fs = (Outcome.fatal, fs) := by
  unfold targetPath at h
  unfold writeImage osCreate
  simp only [h, if_true]

theorem fileWrite_after_create (fs : FS) (path : String) (data : List Nat) :
    fileWrite ⟨fun q => if q = path then some [] else fs.files q, fs.createFails⟩ path data =
      ⟨fun q => if q = path then some data else fs.files q, fs.createFails⟩ := by
  unfold fileWrite
  simp only [if_true, Option.getD_some, List.nil_append, FS.mk.injEq, and_true]
  funext q
  by_cases h : q = path <;> simp [h]

theorem writeImage_supported (c : Codec) (img : Image) (dst_dir ext : String) (fs : FS)
    (hext : ext = ".jpg" ∨ ext = ".jpeg" ∨ ext = ".png")
    (hcreate : fs.createFails (targetPath c img dst_dir ext) = false) :
    writeImage c img dst_dir ext fs =
      (dataURI (writtenBytes c img ext),
        ⟨fun q => if q = targetPath c img dst_dir ext then some (writtenBytes c img ext)
          else fs.files q, fs.createFails⟩) := by
  unfold targetPath at hcreate
  unfold writeImage osCreate
  simp only [hcreate, Bool.false_eq_true, if_false, fileWrite_after_create]
  rcases hext with h | h | h
  · subst h
    simp only [true_or, if_true, writtenBytes, targetPath]
    rw [imageToBase64_eq _ _ (jpegEncode c img (some 95)) (by simp)]
  · subst h
    simp only [or_true, if_true, writtenBytes, targetPath]
    rw [imageToBase64_eq _ _ (jpegEncode c img (some 95)) (by simp)]
  · subst h
    have hj : ¬ ((".png" : String) = ".jpg" ∨ (".png" : String) = ".jpeg") := by decide
    simp only [hj, if_false, if_true, writtenBytes, targetPath]
    rw [imageToBase64_eq _ _ (pngEncode c 0 img) (by simp)]

theorem writeImage_unsupported (c : Codec) (img : Image) (dst_dir ext : String) (fs : FS)
    (hext : ext ≠ ".jpg" ∧ ext ≠ ".jpeg" ∧ ext ≠ ".png")
    (hcreate : fs.createFails (dst_dir ++ "/" ++ "00000000" ++ ext) = false) :
    writeImage c img dst_dir ext fs =
      (Outcome.error "unsupported image format",
        ⟨fun q => if q = dst_dir ++ "/" ++ "00000000" ++ ext then some [] else fs.files q,
          fs.createFails⟩) := by
  have hcrc : crcHash c img ext = 0 := by
    unfold crcHash crcHashBuf
    simp only [hext.1, hext.2.1, hext.2.2, or_self, if_false]
    decide
  have h0 : Sprintf08x 0 = "00000000" := by decide
  unfold writeImage osCreate
  simp only [hcrc, h0, hcreate, Bool.false_eq_true, if_false, hext.1, hext.2.1, hext.2.2,
    or_self]


set_option maxRecDepth 100000

theorem pngEncode_image2x2 (c : Codec) :
    pngEncode c 0 (Image.nrgba image2x2) = pngSignature ++ c.pngStream (Image.nrgba image2x2) 0 := by
  have hcond : ¬ ((Image.nrgba image2x2).Bounds.Dx ≤ 0 ∨ (Image.nrgba image2x2).Bounds.Dy ≤ 0 ∨
      (Image.nrgba image2x2).Bounds.Dx ≥ 4294967296 ∨
      (Image.nrgba image2x2).Bounds.Dy ≥ 4294967296) := by decide
  unfold pngEncode
  simp only [hcond, if_false]

theorem pngEncode_emptyNRGBA (c : Codec) : pngEncode c 0 (Image.nrgba emptyNRGBA) = [] := by
  have hcond : (Image.nrgba emptyNRGBA).Bounds.Dx ≤ 0 ∨ (Image.nrgba emptyNRGBA).Bounds.Dy ≤ 0 ∨
      (Image.nrgba emptyNRGBA).Bounds.Dx ≥ 4294967296 ∨
      (Image.nrgba emptyNRGBA).Bounds.Dy ≥ 4294967296 := by decide
  unfold pngEncode
  simp only [hcond, if_true]

theorem writtenBytes_png (c : Codec) (img : Image) :
    writtenBytes c img ".png" = pngEncode c 0 img := by
  have hj : ¬ ((".png" : String) = ".jpg" ∨ (".png" : String) = ".jpeg") := by decide
  unfold writtenBytes
  simp only [hj, if_false, if_true]

theorem writtenBytes_jpeg (c : Codec) (img : Image) (ext : String)
    (hext : ext = ".jpg" ∨ ext = ".jpeg") :
    writtenBytes c img ext = jpegEncode c img (some 95) := by
  unfold writtenBytes
  simp only [hext, if_true]

theorem crcHash_jpeg (c : Codec) (img : Image) (ext : String)
    (hext : ext = ".jpg" ∨ ext = ".jpeg") :
    crcHash c img ext = Checksum (jpegEncode c img none) (MakeTable 0xeb31d82e) := by
  unfold crcHash crcHashBuf
  simp only [hext, if_true]

theorem crcHash_png (c : Codec) (img : Image) :
    crcHash c img ".png" = Checksum (pngEncode c 0 img) (MakeTable 0xeb31d82e) := by
  have hj : ¬ ((".png" : String) = ".jpg" ∨ (".png" : String) = ".jpeg") := by decide
  unfold crcHash crcHashBuf
  simp only [hj, if_false, if_true]

/-! ### The key and the stored bytes -/

/-- For `.png` the file `writeImage` creates is named after the checksum of
exactly the bytes written into it. -/
theorem writeImage_png_key_is_digest (c : Codec) (img : Image) (dst_dir : String) (fs : FS)
    (hcreate : fs.createFails (targetPath c img dst_dir ".png") = false) :
    (writeImage c img dst_dir ".png" fs).2.files
        (dst_dir ++ "/" ++ Sprintf08x (Checksum (pngEncode c 0 img) (MakeTable 0xeb31d82e))
          ++ ".png") = some (pngEncode c 0 img) := by
  rw [writeImage_supported c img dst_dir ".png" fs (by simp) hcreate]
  simp [targetPath, crcHash_png, writtenBytes_png]

/-- C5, on the code: for `.jpg` and `.jpeg` the file `writeImage` creates holds
the JPEG encoding at quality 95, while its name is built from the checksum of
the encoding with nil options (quality 75); whenever these two checksums
differ, the key in the file name is not the key of the stored bytes. -/
theorem writeImage_jpeg_key_not_digest (c : Codec) (img : Image) (dst_dir ext : String)
    (fs : FS) (hext : ext = ".jpg" ∨ ext = ".jpeg")
    (hcreate : fs.createFails (targetPath c img dst_dir ext) = false)
    (hdiff : Checksum (jpegEncode c img none) (MakeTable 0xeb31d82e) ≠
      Checksum (jpegEncode c img (some 95)) (MakeTable 0xeb31d82e)) :
    (writeImage c img dst_dir ext fs).2.files (targetPath c img dst_dir ext) =
        some (jpegEncode c img (some 95)) ∧
      targetPath c img dst_dir ext = dst_dir ++ "/" ++
        Sprintf08x (Checksum (jpegEncode c img none) (MakeTable 0xeb31d82e)) ++ ext ∧
      Sprintf08x (Checksum (jpegEncode c img none) (MakeTable 0xeb31d82e)) ≠
        Sprintf08x (Checksum (jpegEncode c img (some 95)) (MakeTable 0xeb31d82e)) ∧
      (img.Bounds.Dx < 65536 ∧ img.Bounds.Dy < 65536 →
        jpegEncode c img none = [0xFF, 0xD8, 0xFF, 0xDB] ++ c.jpegStream img 75 ∧
        jpegEncode c img (some 95) = [0xFF, 0xD8, 0xFF, 0xDB] ++ c.jpegStream img 95) := by
  refine ⟨?_, ?_, ?_, ?_⟩
  · rw [writeImage_supported c img dst_dir ext fs (by tauto) hcreate]
    simp [writtenBytes_jpeg c img ext hext]
  · unfold targetPath
    rw [crcHash_jpeg c img ext hext]
  · intro h
    apply hdiff
    have h1 := parseHex_Sprintf08x _ (Checksum_lt (jpegEncode c img none) 0xeb31d82e (by decide))
    have h2 := parseHex_Sprintf08x _
      (Checksum_lt (jpegEncode c img (some 95)) 0xeb31d82e (by decide))
    rw [h] at h1
    rw [h1] at h2
    exact Option.some.inj h2
  · intro hsz
    have hcond : ¬ (img.Bounds.Dx ≥ 65536 ∨ img.Bounds.Dy ≥ 65536) := by omega
    unfold jpegEncode
    simp only [hcond, if_false, DefaultQuality]
    constructor
    · trivial
    · simp

/-- C5, at a concrete input: the 2 by 2 image stored as `.jpg` in an empty
directory, with the stand-in stream. -/
theorem writeImage_jpeg_key_not_digest_witness :
    (writeImage rawCodec (Image.nrgba image2x2) "dst" ".jpg" emptyDir).2.files
        (targetPath rawCodec (Image.nrgba image2x2) "dst" ".jpg") =
        some (jpegEncode rawCodec (Image.nrgba image2x2) (some 95)) ∧
      targetPath rawCodec (Image.nrgba image2x2) "dst" ".jpg" = "dst" ++ "/" ++
        Sprintf08x (Checksum (jpegEncode rawCodec (Image.nrgba image2x2) none)
          (MakeTable 0xeb31d82e)) ++ ".jpg" ∧
      Sprintf08x (Checksum (jpegEncode rawCodec (Image.nrgba image2x2) none)
          (MakeTable 0xeb31d82e)) ≠
        Sprintf08x (Checksum (jpegEncode rawCodec (Image.nrgba image2x2) (some 95))
          (MakeTable 0xeb31d82e)) ∧
      ((Image.nrgba image2x2).Bounds.Dx < 65536 ∧ (Image.nrgba image2x2).Bounds.Dy < 65536 →
        jpegEncode rawCodec (Image.nrgba image2x2) none =
          [0xFF, 0xD8, 0xFF, 0xDB] ++ rawCodec.jpegStream (Image.nrgba image2x2) 75 ∧
        jpegEncode rawCodec (Image.nrgba image2x2) (some 95) =
          [0xFF, 0xD8, 0xFF, 0xDB] ++ rawCodec.jpegStream (Image.nrgba image2x2) 95) :=
  writeImage_jpeg_key_not_digest rawCodec (Image.nrgba image2x2) "dst" ".jpg" emptyDir
    (by decide) (by decide) (by decide)


/-! ### A file that already exists -/

/-- C6 fails as stated: whatever the encoders, some existing file at the keyed
path is changed by `writeImage`; with the stand-in streams, the one-byte file
`dst/4d39af35.png` holds the PNG encoding of the 2 by 2 image after the call. -/
theorem writeImage_overwrites_existing_file :
    (¬ ∃ c : Codec, ∀ (img : Image) (fs : FS) (old : List Nat),
        fs.files (targetPath c img "dst" ".png") = some old →
        (writeImage c img "dst" ".png" fs).2.files (targetPath c img "dst" ".png") = some old) ∧
    targetPath rawCodec (Image.nrgba image2x2) "dst" ".png" = "dst/4d39af35.png" ∧
    foreignDir.files "dst/4d39af35.png" = some [0] ∧
    (writeImage rawCodec (Image.nrgba image2x2) "dst" ".png" foreignDir).1 =
      Outcome.ok "data:image/png;base64,iVBORw0KGgoAAQIDBAUGBwgJCgsMDQ4PEA==" ∧
    (writeImage rawCodec (Image.nrgba image2x2) "dst" ".png" foreignDir).2.files
        "dst/4d39af35.png" =
      some [137, 80, 78, 71, 13, 10, 26, 10, 0, 1, 2, 3, 4, 5, 6, 7, 8, 9, 10, 11, 12, 13, 14,
        15, 16] := by
  refine ⟨?_, by decide, by decide, by decide, by decide⟩
  rintro ⟨c, h⟩
  have h1 := h (Image.nrgba image2x2) ⟨fun _ => some [], fun _ => false⟩ [] rfl
  rw [writeImage_supported c _ "dst" ".png" _ (by simp) rfl] at h1
  simp only [if_true, writtenBytes_png, pngEncode_image2x2, pngSignature] at h1
  simp at h1

/-- C6, amended: when a file already exists at `dst_dir/<key><ext>` (supported
extension, `os.Create` succeeds), `writeImage` truncates and rewrites it: after
the call the file holds exactly the bytes encoded by this call, so it is
unchanged exactly when it held those bytes before; every other file is
unchanged; the call returns the data URI of those bytes, and succeeds when they
are recognised as JPEG or PNG. -/
theorem writeImage_existing_file (c : Codec) (img : Image) (dst_dir ext : String) (fs : FS)
    (old : List Nat) (hext : ext = ".jpg" ∨ ext = ".jpeg" ∨ ext = ".png")
    (hold : fs.files (targetPath c img dst_dir ext) = some old)
    (hcreate : fs.createFails (targetPath c img dst_dir ext) = false) :
    (writeImage c img dst_dir ext fs).2.files (targetPath c img dst_dir ext) =
        some (writtenBytes c img ext) ∧
      ((writeImage c img dst_dir ext fs).2.files (targetPath c img dst_dir ext) =
          fs.files (targetPath c img dst_dir ext) ↔ old = writtenBytes c img ext) ∧
      (∀ q : String, q ≠ targetPath c img dst_dir ext →
        (writeImage c img dst_dir ext fs).2.files q = fs.files q) ∧
      (writeImage c img dst_dir ext fs).1 = dataURI (writtenBytes c img ext) ∧
      (DetectContentType (writtenBytes c img ext) ≠ Mime.other →
        ∃ uri : String, (writeImage c img dst_dir ext fs).1 = Outcome.ok uri) := by
  rw [writeImage_supported c img dst_dir ext fs hext hcreate]
  refine ⟨by simp, ?_, ?_, rfl, ?_⟩
  · simp only [if_true, hold, Option.some.injEq]
    exact eq_comm
  · intro q hq
    simp [hq]
  · intro hm
    simp only [dataURI]
    cases hd : DetectContentType (writtenBytes c img ext) with
    | jpeg => exact ⟨_, rfl⟩
    | png => exact ⟨_, rfl⟩
    | other => exact absurd hd hm

/-- C6 amended, at a concrete input: the directory with the one-byte file
`dst/4d39af35.png` and the 2 by 2 image stored as `.png`. -/
theorem writeImage_existing_file_witness :
    (writeImage rawCodec (Image.nrgba image2x2) "dst" ".png" foreignDir).2.files
        (targetPath rawCodec (Image.nrgba image2x2) "dst" ".png") =
        some (writtenBytes rawCodec (Image.nrgba image2x2) ".png") ∧
      ((writeImage rawCodec (Image.nrgba image2x2) "dst" ".png" foreignDir).2.files
          (targetPath rawCodec (Image.nrgba image2x2) "dst" ".png") =
          foreignDir.files (targetPath rawCodec (Image.nrgba image2x2) "dst" ".png") ↔
        [0] = writtenBytes rawCodec (Image.nrgba image2x2) ".png") ∧
      (∀ q : String, q ≠ targetPath rawCodec (Image.nrgba image2x2) "dst" ".png" →
        (writeImage rawCodec (Image.nrgba image2x2) "dst" ".png" foreignDir).2.files q =
          foreignDir.files q) ∧
      (writeImage rawCodec (Image.nrgba image2x2) "dst" ".png" foreignDir).1 =
        dataURI (writtenBytes rawCodec (Image.nrgba image2x2) ".png") ∧
      (DetectContentType (writtenBytes rawCodec (Image.nrgba image2x2) ".png") ≠ Mime.other →
        ∃ uri : String,
          (writeImage rawCodec (Image.nrgba image2x2) "dst" ".png" foreignDir).1 =
            Outcome.ok uri) :=
  writeImage_existing_file rawCodec (Image.nrgba image2x2) "dst" ".png" foreignDir [0]
    (by decide) (by decide) (by decide)

/-! ### An unsupported extension -/

/-- C7 fails as stated: whatever the encoders, `writeImage` does not leave the
directory unmodified for every unsupported extension; for `.gif` and an empty
directory `dst` it returns the error `unsupported image format`, and the file
`dst/00000000.gif`, which did not exist, exists afterwards and is empty. -/
theorem writeImage_unsupported_modifies_directory :
    (¬ ∃ c : Codec, ∀ (img : Image) (ext : String) (fs : FS),
        ext ≠ ".jpg" ∧ ext ≠ ".jpeg" ∧ ext ≠ ".png" →
        (writeImage c img "dst" ext fs).1 = Outcome.error "unsupported image format" ∧
          (writeImage c img "dst" ext fs).2.files = fs.files) ∧
    emptyDir.files "dst/00000000.gif" = none ∧
    emptyDir.createFails "dst/00000000.gif" = false ∧
    (writeImage rawCodec (Image.nrgba image2x2) "dst" ".gif" emptyDir).1 =
      Outcome.error "unsupported image format" ∧
    (writeImage rawCodec (Image.nrgba image2x2) "dst" ".gif" emptyDir).2.files
      "dst/00000000.gif" = some [] := by
  refine ⟨?_, rfl, rfl, by decide, by decide⟩
  rintro ⟨c, h⟩
  have h1 := (h (Image.nrgba image2x2) ".gif" emptyDir (by decide)).2
  rw [writeImage_unsupported c _ "dst" ".gif" emptyDir (by decide) rfl] at h1
  have h2 := congrFun h1 ("dst" ++ "/" ++ "00000000" ++ ".gif")
  simp [emptyDir] at h2

/-- C7, amended: for an extension other than `.jpg`, `.jpeg` and `.png`, in a
directory state where `os.Create` succeeds at `dst_dir/00000000<ext>`,
`writeImage` returns the error `unsupported image format` after it has created
that file, or truncated it: the file `dst_dir/00000000<ext>` exists and is empty
after the call (so the directory is modified unless it already held that
empty file), and every other file is unchanged. -/
theorem writeImage_unsupported_creates_file (c : Codec) (img : Image) (dst_dir ext : String)
    (fs : FS) (hext : ext ≠ ".jpg" ∧ ext ≠ ".jpeg" ∧ ext ≠ ".png")
    (hcreate : fs.createFails (dst_dir ++ "/" ++ "00000000" ++ ext) = false) :
    (writeImage c img dst_dir ext fs).1 = Outcome.error "unsupported image format" ∧
      targetPath c img dst_dir ext = dst_dir ++ "/" ++ "00000000" ++ ext ∧
      (writeImage c img dst_dir ext fs).2.files (dst_dir ++ "/" ++ "00000000" ++ ext) =
        some [] ∧
      (fs.files (dst_dir ++ "/" ++ "00000000" ++ ext) ≠ some [] →
        (writeImage c img dst_dir ext fs).2.files ≠ fs.files) ∧
      (∀ q : String, q ≠ dst_dir ++ "/" ++ "00000000" ++ ext →
        (writeImage c img dst_dir ext fs).2.files q = fs.files q) := by
  have hcrc : crcHash c img ext = 0 := by
    unfold crcHash crcHashBuf
    simp only [hext.1, hext.2.1, hext.2.2, or_self, if_false]
    decide
  have h0 : Sprintf08x 0 = "00000000" := by decide
  rw [writeImage_unsupported c img dst_dir ext fs hext hcreate]
  refine ⟨rfl, ?_, by simp, ?_, ?_⟩
  · unfold targetPath
    rw [hcrc, h0]
  · intro hne h
    have := congrFun h (dst_dir ++ "/" ++ "00000000" ++ ext)
    simp only [if_true] at this
    exact hne this.symm
  · intro q hq
    simp [hq]

/-- C7 amended, at a concrete input: extension `.gif` and an empty directory. -/
theorem writeImage_unsupported_creates_file_witness :
    (writeImage rawCodec (Image.nrgba image2x2) "dst" ".gif" emptyDir).1 =
        Outcome.error "unsupported image format" ∧
      targetPath rawCodec (Image.nrgba image2x2) "dst" ".gif" =
        "dst" ++ "/" ++ "00000000" ++ ".gif" ∧
      (writeImage rawCodec (Image.nrgba image2x2) "dst" ".gif" emptyDir).2.files
        ("dst" ++ "/" ++ "00000000" ++ ".gif") = some [] ∧
      (emptyDir.files ("dst" ++ "/" ++ "00000000" ++ ".gif") ≠ some [] →
        (writeImage rawCodec (Image.nrgba image2x2) "dst" ".gif" emptyDir).2.files ≠
          emptyDir.files) ∧
      (∀ q : String, q ≠ "dst" ++ "/" ++ "00000000" ++ ".gif" →
        (writeImage rawCodec (Image.nrgba image2x2) "dst" ".gif" emptyDir).2.files q =
          emptyDir.files q) :=
  writeImage_unsupported_creates_file rawCodec (Image.nrgba image2x2) "dst" ".gif" emptyDir
    (by decide) (by decide)

/-! ### Two calls in a row -/

/-- C8 fails as stated: whatever the encoders, the first call does not succeed
for the zero image (which `cropImage` returns for a region outside the image)
and `.png`: the PNG encoder rejects it, the file stays empty and
`imageToBase64` stops the process; nor does it succeed in a directory where
`os.Create` fails (`log.Fatal`). -/
theorem writeImage_empty_png_stops :
    (¬ ∃ c : Codec, ∀ (img : Image) (fs : FS),
        ∃ uri : String, (writeImage c img "dst" ".png" fs).1 = Outcome.ok uri) ∧
    (Image.nrgba emptyNRGBA).Bounds = ZR ∧
    cropImage (Image.nrgba image2x2) ⟨⟨3, 3⟩, ⟨5, 5⟩⟩ = Outcome.ok (Image.nrgba emptyNRGBA) ∧
    writeImage rawCodec (Image.nrgba emptyNRGBA) "dst" ".png" emptyDir =
      (Outcome.fatal, (writeImage rawCodec (Image.nrgba emptyNRGBA) "dst" ".png" emptyDir).2) ∧
    (writeImage rawCodec (Image.nrgba emptyNRGBA) "dst" ".png" emptyDir).2.files
      "dst/00000000.png" = some [] ∧
    (writeImage rawCodec (Image.nrgba image2x2) "dst" ".png" ⟨fun _ => none, fun _ => true⟩).1 =
      Outcome.fatal := by
  refine ⟨?_, rfl, by decide, ?_, by decide, by decide⟩
  · rintro ⟨c, h⟩
    obtain ⟨uri, hu⟩ := h (Image.nrgba emptyNRGBA) emptyDir
    rw [writeImage_supported c _ "dst" ".png" _ (by simp) rfl] at hu
    simp only [writtenBytes_png, pngEncode_emptyNRGBA] at hu
    have hd : dataURI [] = Outcome.fatal := by decide
    rw [hd] at hu
    cases hu
  · have h1 : (writeImage rawCodec (Image.nrgba emptyNRGBA) "dst" ".png" emptyDir).1 =
        Outcome.fatal := by decide
    exact Prod.ext h1 rfl

/-- C8, amended: whenever a first call of `writeImage` succeeds with a data
URI, the extension is a supported one, a second call with the same image and
extension on the resulting directory succeeds with the same data URI and leaves
that directory as it is, and that directory is the one before the first call
with the keyed file holding the encoded image. -/
theorem writeImage_twice (c : Codec) (img : Image) (dst_dir ext : String) (fs : FS)
    (uri : String) (hfirst : (writeImage c img dst_dir ext fs).1 = Outcome.ok uri) :
    writeImage c img dst_dir ext (writeImage c img dst_dir ext fs).2 =
        (Outcome.ok uri, (writeImage c img dst_dir ext fs).2) ∧
      (ext = ".jpg" ∨ ext = ".jpeg" ∨ ext = ".png") ∧
      (writeImage c img dst_dir ext fs).2.files (targetPath c img dst_dir ext) =
        some (writtenBytes c img ext) ∧
      (∀ q : String, q ≠ targetPath c img dst_dir ext →
        (writeImage c img dst_dir ext fs).2.files q = fs.files q) := by
  have hcreate : fs.createFails (targetPath c img dst_dir ext) = false := by
    by_contra hc
    rw [Bool.not_eq_false] at hc
    rw [writeImage_create_fails c img dst_dir ext fs hc] at hfirst
    cases hfirst
  have hext : ext = ".jpg" ∨ ext = ".jpeg" ∨ ext = ".png" := by
    by_contra hne
    have hne' : ext ≠ ".jpg" ∧ ext ≠ ".jpeg" ∧ ext ≠ ".png" := by tauto
    have hcrc : crcHash c img ext = 0 := by
      unfold crcHash crcHashBuf
      simp only [hne'.1, hne'.2.1, hne'.2.2, or_self, if_false]
      decide
    have h0 : Sprintf08x 0 = "00000000" := by decide
    have hc' : fs.createFails (dst_dir ++ "/" ++ "00000000" ++ ext) = false := by
      rw [← h0, ← hcrc]; exact hcreate
    rw [writeImage_unsupported c img dst_dir ext fs hne' hc'] at hfirst
    cases hfirst
  have hw := writeImage_supported c img dst_dir ext fs hext hcreate
  rw [hw] at hfirst ⊢
  simp only at hfirst ⊢
  refine ⟨?_, hext, by simp, fun q hq => by simp [hq]⟩
  rw [writeImage_supported c img dst_dir ext
    ⟨fun q => if q = targetPath c img dst_dir ext then some (writtenBytes c img ext)
      else fs.files q, fs.createFails⟩ hext hcreate, hfirst]
  congr 2
  funext q
  by_cases hq : q = targetPath c img dst_dir ext <;> simp [hq]

/-- C8 amended, at a concrete input: the 2 by 2 image stored twice as `.png`
in an empty directory. -/
theorem writeImage_twice_witness :
    writeImage rawCodec (Image.nrgba image2x2) "dst" ".png"
        (writeImage rawCodec (Image.nrgba image2x2) "dst" ".png" emptyDir).2 =
        (Outcome.ok "data:image/png;base64,iVBORw0KGgoAAQIDBAUGBwgJCgsMDQ4PEA==",
          (writeImage rawCodec (Image.nrgba image2x2) "dst" ".png" emptyDir).2) ∧
      ((".png" : String) = ".jpg" ∨ (".png" : String) = ".jpeg" ∨ (".png" : String) = ".png") ∧
      (writeImage rawCodec (Image.nrgba image2x2) "dst" ".png" emptyDir).2.files
          (targetPath rawCodec (Image.nrgba image2x2) "dst" ".png") =
        some (writtenBytes rawCodec (Image.nrgba image2x2) ".png") ∧
      (∀ q : String, q ≠ targetPath rawCodec (Image.nrgba image2x2) "dst" ".png" →
        (writeImage rawCodec (Image.nrgba image2x2) "dst" ".png" emptyDir).2.files q =
          emptyDir.files q) :=
  writeImage_twice rawCodec (Image.nrgba image2x2) "dst" ".png" emptyDir
    "data:image/png;base64,iVBORw0KGgoAAQIDBAUGBwgJCgsMDQ4PEA==" (by decide)

end CropFaces
